import Mathlib

/-!
Verification development for the ai-pr-watcher repository (two Python
source files: `collect_data.py` and `generate_chart.py`).

The Python code is shallowly embedded: pure computations become Lean
functions on `Nat`/`Int`/`Rat`/`List Char`; file and network effects are
made explicit (the CSV file is a value of type `Option (List CsvRow)`,
the HTTP layer is a function from URL to response).  Python floats are
modelled as exact rationals; where the code formats a float with a fixed
number of decimals the model performs exact rational rounding
(round-half-even, as CPython's formatting does on the nearest double).
-/

/-- Character lists stand for Python strings throughout the embedding. -/
abbrev Chars := List Char

/-- A timezone-naive second-precision datetime, the part of Python's
`datetime.datetime` that the two scripts use. -/
structure DateTime where
  year : Nat
  month : Nat
  day : Nat
  hour : Nat
  minute : Nat
  second : Nat
deriving DecidableEq, Repr

/-- The non-breaking hyphen U+2011 that appears (twice) inside the
`strftime` format literal on line 52 of `collect_data.py`. -/
def nbHyphen : Char := Char.ofNat 0x2011

/-- Zero-padded two-digit decimal rendering, the `%m`/`%d`/`%H`/`%M`/`%S`
directives of `strftime` (their values never exceed two digits for a
valid datetime). -/
def pad2 (n : Nat) : Chars :=
  [Nat.digitChar (n / 10 % 10), Nat.digitChar (n % 10)]

/-- Zero-padded four-digit decimal rendering, the `%Y` directive of
`strftime` for years in 1000..9999 (the scripts only ever format the
current year). -/
def pad4 (n : Nat) : Chars :=
  [Nat.digitChar (n / 1000 % 10), Nat.digitChar (n / 100 % 10),
   Nat.digitChar (n / 10 % 10), Nat.digitChar (n % 10)]

/-- Interpreter for the subset of `strftime` directives used by
`collect_data.py`; any other character of the format string is copied
verbatim. -/
def strftime (t : DateTime) : Chars → Chars
  | '%' :: c :: rest =>
    (if c = 'Y' then pad4 t.year
     else if c = 'm' then pad2 t.month
     else if c = 'd' then pad2 t.day
     else if c = 'H' then pad2 t.hour
     else if c = 'M' then pad2 t.minute
     else if c = 'S' then pad2 t.second
     else ['%', c]) ++ strftime t rest
  | c :: rest => c :: strftime t rest
  | [] => []

/-- The exact format literal of `collect_data.py` line 52:
`"%Y‑%m‑%d %H:%M:%S"`, whose two date separators are U+2011, not the
ASCII hyphen-minus. -/
def timestampFmt : Chars :=
  ['%', 'Y', nbHyphen, '%', 'm', nbHyphen, '%', 'd', ' ',
   '%', 'H', ':', '%', 'M', ':', '%', 'S']

/-- Timestamp string written into the CSV by the Collector:
`dt.datetime.now(dt.timezone.utc).strftime("%Y‑%m‑%d %H:%M:%S")`, with
the current UTC time passed in explicitly. -/
def timestampOf (t : DateTime) : Chars := strftime t timestampFmt

/-- Reporter's dash normalization, `generate_chart.py` line 30:
`df["timestamp"].str.replace("‑", "-")` replaces every occurrence of the
single character U+2011 by an ASCII hyphen. -/
def normalizeDash (s : Chars) : Chars :=
  s.map fun c => if c = nbHyphen then '-' else c

/-- Decimal digit value of an ASCII digit character. -/
def digitVal (c : Char) : Option Nat :=
  if '0' ≤ c ∧ c ≤ '9' then some (c.toNat - '0'.toNat) else none

/-- Read exactly `k` decimal digits from the front of the input,
folding them onto `acc`; fails if a non-digit or the end of input is
met first. -/
def readDigits : Nat → Nat → Chars → Option (Nat × Chars)
  | 0, acc, s => some (acc, s)
  | k + 1, acc, c :: s =>
    match digitVal c with
    | some d => readDigits k (acc * 10 + d) s
    | none => none
  | _ + 1, _, [] => none

/-- Expect one specific character at the front of the input. -/
def expectChar (c : Char) : Chars → Option Chars
  | c' :: s => if c' = c then some s else none
  | [] => none

/-- Gregorian leap-year rule. -/
def isLeapYear (y : Nat) : Bool :=
  (y % 4 == 0 && y % 100 != 0) || (y % 400 == 0)

/-- Number of days in a month of a given year. -/
def daysInMonth (y m : Nat) : Nat :=
  if m = 2 then (if isLeapYear y then 29 else 28)
  else if m = 4 ∨ m = 6 ∨ m = 9 ∨ m = 11 then 30
  else 31

/-- Datetime parser for the normalized `YYYY-MM-DD HH:MM:SS` shape.
This models the `pd.to_datetime` call on `generate_chart.py` line 31 at
the one format the log contains: it accepts exactly four digits, a
hyphen, two digits, a hyphen, two digits, a space, and three
colon-separated two-digit fields, and rejects out-of-range calendar or
clock fields. -/
def parseTimestamp (s : Chars) : Option DateTime :=
  match readDigits 4 0 s with
  | none => none
  | some (y, s) =>
    match expectChar '-' s with
    | none => none
    | some s =>
      match readDigits 2 0 s with
      | none => none
      | some (mo, s) =>
        match expectChar '-' s with
        | none => none
        | some s =>
          match readDigits 2 0 s with
          | none => none
          | some (d, s) =>
            match expectChar ' ' s with
            | none => none
            | some s =>
              match readDigits 2 0 s with
              | none => none
              | some (h, s) =>
                match expectChar ':' s with
                | none => none
                | some s =>
                  match readDigits 2 0 s with
                  | none => none
                  | some (mi, s) =>
                    match expectChar ':' s with
                    | none => none
                    | some s =>
                      match readDigits 2 0 s with
                      | none => none
                      | some (sec, s) =>
                        if s = [] ∧ 1 ≤ mo ∧ mo ≤ 12 ∧ 1 ≤ d ∧
                            d ≤ daysInMonth y mo ∧ h ≤ 23 ∧ mi ≤ 59 ∧
                            sec ≤ 59 then
                          some ⟨y, mo, d, h, mi, sec⟩
                        else none

/-! ### Collector (`collect_data.py`) -/

/-- JSON values that can sit in the `total_count` field of a search
response body: a number (the intended case) or any non-numeric value,
represented by its textual form. -/
inductive JVal where
  | num (n : Int)
  | str (s : Chars)
deriving DecidableEq, Repr

/-- An HTTP response: status code plus the decoded JSON object body
(field name / value pairs), which is all `collect_data` looks at. -/
structure Resp where
  status : Nat
  body : List (String × JVal)
deriving DecidableEq, Repr

/-- Errors that abort a collection run: `requests.HTTPError` raised by
`r.raise_for_status()`, and the `KeyError` raised by
`data["total_count"]` when the field is absent. -/
inductive CollectErr where
  | httpError (code : Nat)
  | keyError
deriving DecidableEq, Repr

/-- The query dictionary `Q` of `collect_data.py` in insertion order. -/
def Q : List (String × String) :=
  [("is:pr+head:copilot/", "copilot_total"),
   ("is:pr+head:copilot/+is:merged", "copilot_merged"),
   ("is:pr+head:codex/", "codex_total"),
   ("is:pr+head:codex/+is:merged", "codex_merged"),
   ("committer:\"devin-ai-integration[bot]\"", "devin_commits"),
   ("committer:\"google-labs-jules[bot]\"", "jules_commits")]

/-- URL construction: commit-count metrics (`"commits" in key`) go to
the commit-search endpoint, the others to the issue-search endpoint. -/
def apiUrl (query key : String) : String :=
  if "commits".data <:+: key.data then
    "https://api.github.com/search/commits?q=" ++ query
  else
    "https://api.github.com/search/issues?q=" ++ query

/-- Model of `requests.Response.raise_for_status`: raises exactly for
status codes 400–599. -/
def statusBad (s : Nat) : Prop := 400 ≤ s ∧ s < 600

instance (s : Nat) : Decidable (statusBad s) := by
  unfold statusBad; infer_instance

/-- The query loop of `collect_data`: for each `(query, key)` pair in
order, issue the request, abort on a failing HTTP status
(`raise_for_status`), then extract `data["total_count"]`, aborting with
a `KeyError` when the field is absent.  Whatever value the field holds
(numeric or not) is recorded unchecked, exactly as in the source.  The
values come back in `Q`'s insertion order, which is also the order the
row is assembled in. -/
def fetchCounts (api : String → Resp) : List (String × String) →
    Except CollectErr (List JVal)
  | [] => .ok []
  | (query, key) :: rest =>
    let r := api (apiUrl query key)
    if statusBad r.status then .error (.httpError r.status)
    else
      match r.body.lookup "total_count" with
      | none => .error .keyError
      | some v =>
        match fetchCounts api rest with
        | .error e => .error e
        | .ok vs => .ok (v :: vs)

/-- CSV cell text for an extracted value, as `csv.writer` stringifies
it. -/
def cellOfJVal : JVal → Chars
  | .num n => (toString n).data
  | .str s => s

/-- The CSV header row written on first creation of `data.csv`. -/
def csvHeader : List Chars :=
  ["timestamp".data, "copilot_total".data, "copilot_merged".data,
   "codex_total".data, "codex_merged".data, "devin_commits".data,
   "jules_commits".data]

/-- One run of `collect_data`, with the HTTP layer, the current UTC
time, and the CSV file state (`none` = file absent, `some rows` = the
file's rows) passed explicitly.  Returns the resulting file state and
the propagated exception, if any.  All six requests happen before the
file is opened, so any abort leaves the file untouched. -/
def collect_data (api : String → Resp) (now : DateTime)
    (file : Option (List (List Chars))) :
    Option (List (List Chars)) × Option CollectErr :=
  match fetchCounts api Q with
  | .error e => (file, some e)
  | .ok vals =>
    let row := timestampOf now :: vals.map cellOfJVal
    match file with
    | none => (some [csvHeader, row], none)
    | some rows => (some (rows ++ [row]), none)

/-- A fully valid query response: success status and a numeric
`total_count` field. -/
def ValidResp (r : Resp) : Prop :=
  ¬ statusBad r.status ∧ ∃ n : Int, r.body.lookup "total_count" = some (.num n)

/-! ### Reporter, chart stage (`generate_chart.py`) -/

/-- One parsed row of `data.csv` as the Reporter sees it after
`pd.read_csv` (counts are integers; the timestamp is kept as its raw
string). -/
structure MetricRow where
  timestamp : Chars
  copilot_total : Nat
  copilot_merged : Nat
  codex_total : Nat
  codex_merged : Nat
  devin_commits : Nat
  jules_commits : Nat
deriving DecidableEq, Repr

instance : Inhabited MetricRow := ⟨⟨[], 0, 0, 0, 0, 0, 0⟩⟩

/-- The percentage column of `generate_chart`, lines 47–54:
`(copilot_merged / copilot_total * 100) if copilot_total > 0 else 0`,
with the float arithmetic modelled exactly over `ℚ`. -/
def copilotPercentage (r : MetricRow) : ℚ :=
  if r.copilot_total > 0 then
    (r.copilot_merged : ℚ) / (r.copilot_total : ℚ) * 100
  else 0

/-- The percentage column of `generate_chart`, lines 55–62, for Codex. -/
def codexPercentage (r : MetricRow) : ℚ :=
  if r.codex_total > 0 then
    (r.codex_merged : ℚ) / (r.codex_total : ℚ) * 100
  else 0

/-- Merge rate computed in `update_readme` (line 289) for Copilot. -/
def readmeCopilotRate (r : MetricRow) : ℚ :=
  if r.copilot_total > 0 then
    (r.copilot_merged : ℚ) / (r.copilot_total : ℚ) * 100
  else 0

/-- Merge rate computed in `update_readme` (line 290) for Codex. -/
def readmeCodexRate (r : MetricRow) : ℚ :=
  if r.codex_total > 0 then
    (r.codex_merged : ℚ) / (r.codex_total : ℚ) * 100
  else 0

/-- Merge rate computed in `update_github_pages` for Copilot. -/
def pagesCopilotRate (r : MetricRow) : ℚ :=
  if r.copilot_total > 0 then
    (r.copilot_merged : ℚ) / (r.copilot_total : ℚ) * 100
  else 0

/-- Merge rate computed in `update_github_pages` for Codex. -/
def pagesCodexRate (r : MetricRow) : ℚ :=
  if r.codex_total > 0 then
    (r.codex_merged : ℚ) / (r.codex_total : ℚ) * 100
  else 0

/-- `np.linspace(start, stop, num)` with `endpoint=True` followed by
`.astype(int)`.  The float values are modelled as exact rationals and
the C integer cast's truncation toward zero coincides with `Int.floor`
on the non-negative values this program produces.  (For the index
ranges used here the exact interpolants are never within a float error
of an integer unless they are exactly integral, so the exact-rational
floor agrees with the float computation.) -/
def linspaceInt (start stop : ℚ) (num : Nat) : List Int :=
  (List.range num).map fun i =>
    if i = num - 1 then ⌊stop⌋
    else ⌊start + (i : ℚ) * ((stop - start) / ((num - 1 : Nat) : ℚ))⌋

/-- Index selection of `generate_chart` lines 41–43:
`np.linspace(0, total_points - 1, num=8, dtype=int)`. -/
def sampleIndices (n : Nat) : List Nat :=
  (linspaceInt 0 ((n - 1 : Nat) : ℚ) 8).map Int.toNat

/-- The DisplaySample of lines 38–44: when the log holds more than 8
rows, keep only the rows at the `sampleIndices`; otherwise the log is
used as is. -/
def displaySample (log : List MetricRow) : List MetricRow :=
  if log.length > 8 then
    (sampleIndices log.length).map fun i => log.getD i default
  else log

/-- Index selection as the specification words it: eight indices evenly
spaced across 0..n-1 by linear interpolation, each value rounded to the
nearest integer index. -/
def sampleIndicesSpec (n : Nat) : List Nat :=
  (List.range 8).map fun i : Nat =>
    (round ((i : ℚ) * (((n - 1 : Nat) : ℚ) / 7))).toNat

/-- Decimal rendering of a natural number, e.g. the `"{:.0f}"` format
applied to an integral bar height. -/
def decRepr (n : Nat) : Chars := Nat.toDigits 10 n

/-- One-decimal rendering of the exact ratio `num / den`, the model of
`f"{x:.1f}"` on the float quotient (round-half-even in the last kept
digit, as float formatting performs on the exact value when no
double-rounding interferes). -/
def oneDecimal (num den : Nat) : Chars :=
  let t := 10 * num / den
  let r := 10 * num % den
  let t := if 2 * r > den ∨ (2 * r = den ∧ t % 2 = 1) then t + 1 else t
  decRepr (t / 10) ++ '.' :: decRepr (t % 10)

/-- The `f"{height/1000:.1f}k"` abbreviation of `add_value_labels`. -/
def kFormChars (v : Nat) : Chars := oneDecimal v 1000 ++ ['k']

/-- The `f"{height/1000000:.1f}M"` abbreviation of `add_value_labels`. -/
def mFormChars (v : Nat) : Chars := oneDecimal v 1000000 ++ ['M']

/-- The label text computed by `add_value_labels` (lines 196–216) for a
bar of integral height `v`: start from the plain decimal rendering and
abbreviate only when that rendering exceeds 10 characters, trying the
`k` branch before the `M` branch exactly as the source's `if`/`elif`
does. -/
def labelText (v : Nat) : Chars :=
  let s := decRepr v
  if s.length > 10 then
    if 1000 ≤ v then kFormChars v
    else if 1000000 ≤ v then mFormChars v
    else s
  else s

/-- The label actually drawn for a bar of height `v`: `add_value_labels`
only draws a label when the height is strictly positive. -/
def valueLabel (v : Nat) : Option Chars :=
  if v > 0 then some (labelText v) else none

/-! ### Reporter, Markdown rewrite (`update_readme`) -/

/-- Thousands-separated rendering of an integer, Python's `f"{n:,}"`
(the counts are non-negative integers in this program). -/
def chunk3 : Chars → List Chars
  | a :: b :: c :: d :: rest => [a, b, c] :: chunk3 (d :: rest)
  | l => [l]

/-- Group the decimal digits in threes from the right with commas. -/
def commaFmt (n : Nat) : Chars :=
  (List.intercalate [','] (chunk3 (decRepr n).reverse)).reverse

/-- Two-decimal rendering of a non-negative rational, the model of
`f"{rate:.2f}"` applied to the float merge rate (round-half-even). -/
def twoDecimal (q : ℚ) : Chars :=
  let n := ⌊q * 100⌋
  let r := q * 100 - (n : ℚ)
  let n := if r > 1 / 2 ∨ (r = 1 / 2 ∧ n % 2 ≠ 0) then n + 1 else n
  let m := n.toNat
  decRepr (m / 100) ++ '.' :: pad2 (m % 100)

/-- The section heading that `update_readme` splits the document at. -/
def statsHeading : Chars := "## Current Statistics".data

/-- Everything of the generated statistics block after the heading
itself (the body of the `table_content` f-string of `update_readme`,
lines 292–301). -/
def tableTail (r : MetricRow) : Chars :=
  "\n\n| Service | Total PRs | Merged PRs | Merge Rate | Total Commits |\n| ------- | --------- | ---------- | ---------- | ------------- |\n| Copilot | ".data ++
  commaFmt r.copilot_total ++ " | ".data ++ commaFmt r.copilot_merged ++
  " | ".data ++ twoDecimal (readmeCopilotRate r) ++
  "% | N/A           |\n| Codex   | ".data ++
  commaFmt r.codex_total ++ " | ".data ++ commaFmt r.codex_merged ++
  " | ".data ++ twoDecimal (readmeCodexRate r) ++
  "% | N/A           |\n| Devin   | N/A       | N/A        | N/A        | ".data ++
  commaFmt r.devin_commits ++
  " |\n| Jules   | N/A       | N/A        | N/A        | ".data ++
  commaFmt r.jules_commits ++ " |".data

/-- The full `table_content` f-string: the heading followed by the
table. -/
def tableContent (r : MetricRow) : Chars := statsHeading ++ tableTail r

/-- The part of a string before the first occurrence of `sep`, i.e.
Python's `s.split(sep)[0]` (the whole string when `sep` does not
occur; `sep` is never empty where this is used). -/
def splitBefore (sep : Chars) : Chars → Chars
  | [] => []
  | c :: rest => if sep <+: (c :: rest) then [] else c :: splitBefore sep rest

/-- Whitespace stripped by Python's `str.rstrip()` (restricted to the
ASCII whitespace characters, which is all the documents here
contain). -/
def isPySpace (c : Char) : Bool :=
  c == ' ' || c == '\t' || c == '\n' || c == '\x0b' || c == '\x0c' || c == '\r'

/-- Python's `s.rstrip()` over the ASCII whitespace set. -/
def rstrip (s : Chars) : Chars := (s.reverse.dropWhile isPySpace).reverse

/-- The pure content transformation of `update_readme` (lines 276–323):
given the latest row and the current README text, cut the document at
the first `## Current Statistics` heading (right-stripping what
precedes it) when the heading is present, otherwise keep the whole
document unstripped, and append two newlines plus the regenerated
statistics block.  The surrounding file existence check, read and
write are made explicit by passing the document in and out. -/
def update_readme (latest : MetricRow) (readme : Chars) : Chars :=
  let table := tableContent latest
  if statsHeading <:+: readme then
    rstrip (splitBefore statsHeading readme) ++ '\n' :: '\n' :: table
  else
    readme ++ '\n' :: '\n' :: table

/-! ### Collector lemmas and claims C1, C2 -/

/-- When every query in the list gets a valid response, the query loop
succeeds. -/
lemma fetchCounts_ok_of_valid (api : String → Resp) :
    ∀ l : List (String × String),
    (∀ p ∈ l, ValidResp (api (apiUrl p.1 p.2))) →
    ∃ vals, fetchCounts api l = .ok vals ∧ vals.length = l.length := by
  intro l
  induction l with
  | nil => exact fun _ => ⟨[], rfl, rfl⟩
  | cons p rest ih =>
    intro h
    obtain ⟨query, key⟩ := p
    obtain ⟨hst, n, hn⟩ := h _ (List.mem_cons_self _ _)
    obtain ⟨vs, hvs, hlen⟩ := ih fun q hq => h q (List.mem_cons_of_mem _ hq)
    refine ⟨.num n :: vs, ?_, by simp [hlen]⟩
    simp [fetchCounts, hst, hn, hvs]

/-- When some query in the list gets a failing HTTP status, the query
loop aborts with an error (either that HTTP error or an earlier
abort). -/
lemma fetchCounts_error_of_bad (api : String → Resp) :
    ∀ l : List (String × String),
    (∃ p ∈ l, statusBad (api (apiUrl p.1 p.2)).status) →
    ∃ e, fetchCounts api l = .error e := by
  intro l
  induction l with
  | nil => rintro ⟨p, hp, -⟩; cases hp
  | cons p rest ih =>
    rintro ⟨q, hq, hbad⟩
    obtain ⟨query, key⟩ := p
    by_cases hb : statusBad (api (apiUrl query key)).status
    · exact ⟨.httpError (api (apiUrl query key)).status,
        by simp [fetchCounts, hb]⟩
    · have hqrest : q ∈ rest := by
        rcases List.mem_cons.mp hq with rfl | h
        · exact absurd hbad hb
        · exact h
      cases hl : (api (apiUrl query key)).body.lookup "total_count" with
      | none => exact ⟨.keyError, by simp [fetchCounts, hb, hl]⟩
      | some v =>
        obtain ⟨e, he⟩ := ih ⟨q, hqrest, hbad⟩
        exact ⟨e, by simp [fetchCounts, hb, hl, he]⟩

/-- Claim C1: when all six queries return valid responses, the run
succeeds with no propagated error, an existing log grows by exactly one
row, and a missing log is created as the header row plus exactly one
data row. -/
theorem collect_appends_exactly_one_row (api : String → Resp)
    (now : DateTime) (file : Option (List (List Chars)))
    (hv : ∀ p ∈ Q, ValidResp (api (apiUrl p.1 p.2))) :
    (collect_data api now file).2 = none ∧
    (∀ rows, file = some rows →
      ∃ row, (collect_data api now file).1 = some (rows ++ [row]) ∧
        (rows ++ [row]).length = rows.length + 1) ∧
    (file = none →
      ∃ row, (collect_data api now file).1 = some [csvHeader, row]) := by
  obtain ⟨vals, hvals, -⟩ := fetchCounts_ok_of_valid api Q hv
  refine ⟨?_, ?_, ?_⟩
  · cases file <;> simp [collect_data, hvals]
  · rintro rows rfl
    exact ⟨timestampOf now :: vals.map cellOfJVal,
      by simp [collect_data, hvals], by simp⟩
  · rintro rfl
    exact ⟨timestampOf now :: vals.map cellOfJVal,
      by simp [collect_data, hvals]⟩

/-- A stub HTTP layer whose every response is valid. -/
def apiAllOk : String → Resp :=
  fun _ => ⟨200, [("total_count", JVal.num 7)]⟩

/-- A stub HTTP layer whose every response is a server error. -/
def apiAllBad : String → Resp := fun _ => ⟨500, []⟩

/-- A fixed instant used to instantiate the collector theorems. -/
def nowW : DateTime := ⟨2025, 10, 12, 1, 2, 3⟩

/-- Witness for C1 at a concrete HTTP layer, instant and missing file. -/
theorem collect_appends_exactly_one_row_witness :
    (collect_data apiAllOk nowW none).2 = none :=
  (collect_appends_exactly_one_row apiAllOk nowW none
    (fun p _ => ⟨(by decide : ¬ statusBad 200), 7,
      (by decide : List.lookup "total_count" [("total_count", JVal.num 7)] =
        some (JVal.num 7))⟩)).1

/-- Claim C2: if any of the six requests comes back with a failing HTTP
status, the run aborts with a propagated error and the CSV file state
is unchanged, whatever it was. -/
theorem collect_aborts_on_http_failure (api : String → Resp)
    (now : DateTime) (file : Option (List (List Chars)))
    (hbad : ∃ p ∈ Q, statusBad (api (apiUrl p.1 p.2)).status) :
    (collect_data api now file).1 = file ∧
    ((collect_data api now file).2).isSome := by
  obtain ⟨e, he⟩ := fetchCounts_error_of_bad api Q hbad
  exact ⟨by simp [collect_data, he], by simp [collect_data, he]⟩

/-- Witness for C2: a failing layer leaves a one-row file untouched. -/
theorem collect_aborts_on_http_failure_witness :
    (collect_data apiAllBad nowW (some [csvHeader])).1 = some [csvHeader] :=
  (collect_aborts_on_http_failure apiAllBad nowW (some [csvHeader])
    ⟨("is:pr+head:copilot/", "copilot_total"), by decide, by decide⟩).1

/-! ### Claim C9: handling of the `total_count` field -/

/-- With all statuses succeeding, a missing `total_count` field in any
response aborts the loop with the `KeyError`. -/
lemma fetchCounts_error_of_missing (api : String → Resp) :
    ∀ l : List (String × String),
    (∀ p ∈ l, ¬ statusBad (api (apiUrl p.1 p.2)).status) →
    (∃ p ∈ l, (api (apiUrl p.1 p.2)).body.lookup "total_count" = none) →
    fetchCounts api l = .error .keyError := by
  intro l
  induction l with
  | nil => rintro - ⟨p, hp, -⟩; cases hp
  | cons p rest ih =>
    rintro hok ⟨q, hq, hmiss⟩
    obtain ⟨query, key⟩ := p
    have hst := hok _ (List.mem_cons_self _ _)
    cases hl : (api (apiUrl query key)).body.lookup "total_count" with
    | none => simp [fetchCounts, hst, hl]
    | some v =>
      have hqrest : q ∈ rest := by
        rcases List.mem_cons.mp hq with rfl | h
        · exact absurd hl (by simp [hmiss])
        · exact h
      have := ih (fun r hr => hok r (List.mem_cons_of_mem _ hr))
        ⟨q, hqrest, hmiss⟩
      simp [fetchCounts, hst, hl, this]

/-- With all statuses succeeding and every response carrying the field,
the loop returns exactly the extracted values, numeric or not, in query
order. -/
lemma fetchCounts_ok_of_present (api : String → Resp) :
    ∀ l : List (String × String),
    (∀ p ∈ l, ¬ statusBad (api (apiUrl p.1 p.2)).status) →
    (∀ p ∈ l, ∃ v, (api (apiUrl p.1 p.2)).body.lookup "total_count" = some v) →
    fetchCounts api l = .ok (l.map fun p =>
      (((api (apiUrl p.1 p.2)).body.lookup "total_count").getD (.num 0))) := by
  intro l
  induction l with
  | nil => intro _ _; rfl
  | cons p rest ih =>
    intro hok hpres
    obtain ⟨query, key⟩ := p
    have hst := hok _ (List.mem_cons_self _ _)
    obtain ⟨v, hv⟩ := hpres _ (List.mem_cons_self _ _)
    have := ih (fun r hr => hok r (List.mem_cons_of_mem _ hr))
      (fun r hr => hpres r (List.mem_cons_of_mem _ hr))
    simp [fetchCounts, hst, hv, this]

/-- The data row `collect_data` assembles when every response carries a
`total_count` field: the timestamp followed by the six extracted values
stringified verbatim. -/
def extractedRow (api : String → Resp) (now : DateTime) : List Chars :=
  timestampOf now :: Q.map fun p =>
    cellOfJVal (((api (apiUrl p.1 p.2)).body.lookup "total_count").getD (.num 0))

/-- Claim C9, amended: with all HTTP statuses succeeding, the run fails
(with the propagated `KeyError`, leaving the file unchanged) exactly
when some response lacks the `total_count` field; when the field is
present everywhere, the run succeeds and writes the extracted values
verbatim — a present but non-numeric value is not detected or rejected. -/
theorem collect_field_extraction (api : String → Resp) (now : DateTime)
    (file : Option (List (List Chars)))
    (hok : ∀ p ∈ Q, ¬ statusBad (api (apiUrl p.1 p.2)).status) :
    ((∃ p ∈ Q, (api (apiUrl p.1 p.2)).body.lookup "total_count" = none) →
      (collect_data api now file).1 = file ∧
      (collect_data api now file).2 = some .keyError) ∧
    ((∀ p ∈ Q, ∃ v, (api (apiUrl p.1 p.2)).body.lookup "total_count" = some v) →
      (collect_data api now file).2 = none ∧
      (∀ rows, file = some rows →
        (collect_data api now file).1 = some (rows ++ [extractedRow api now])) ∧
      (file = none →
        (collect_data api now file).1 = some [csvHeader, extractedRow api now])) := by
  constructor
  · intro hmiss
    have := fetchCounts_error_of_missing api Q hok hmiss
    exact ⟨by simp [collect_data, this], by simp [collect_data, this]⟩
  · intro hpres
    have := fetchCounts_ok_of_present api Q hok hpres
    refine ⟨?_, ?_, ?_⟩
    · cases file <;> simp [collect_data, this]
    · rintro rows rfl; simp [collect_data, this, extractedRow]
    · rintro rfl; simp [collect_data, this, extractedRow]

/-- A stub HTTP layer whose responses succeed but lack `total_count`. -/
def apiNoField : String → Resp :=
  fun _ => ⟨200, [("incomplete_results", JVal.num 0)]⟩

/-- Witness for the amended C9: a response without the field aborts
the run with the `KeyError`. -/
theorem collect_field_extraction_witness :
    (collect_data apiNoField nowW (some [csvHeader])).2 =
      some CollectErr.keyError :=
  ((collect_field_extraction apiNoField nowW (some [csvHeader])
      (fun p _ => (by decide : ¬ statusBad 200))).1
    ⟨("is:pr+head:copilot/", "copilot_total"), by decide,
      (by decide : List.lookup "total_count"
        [("incomplete_results", JVal.num 0)] = none)⟩).2

/-- A stub HTTP layer answering every query with success status and a
non-numeric (string) `total_count` value. -/
def apiNonNumeric : String → Resp :=
  fun _ => ⟨200, [("total_count", JVal.str "x".data)]⟩

/-- Counterexample to C9 as stated: with a present but non-numeric
`total_count` value the Collector does not fail — the run completes
with no error and appends a row whose six metric cells are the
non-numeric text verbatim. -/
theorem collect_nonnumeric_not_rejected :
    (collect_data apiNonNumeric nowW (some [csvHeader])).2 = none ∧
    (collect_data apiNonNumeric nowW (some [csvHeader])).1 =
      some [csvHeader, timestampOf nowW :: List.replicate 6 "x".data] := by
  decide

/-! ### Claim C3: merge-rate safety -/

/-- Claim C3: at every site where the Reporter computes a merge rate —
the two chart percentage columns, the two README-table rates and the
two GitHub-Pages rates — the result is 0 when the total is 0 (the
guarded branch, so no division is attempted) and merged/total·100
when the total is positive. -/
theorem merge_rate_zero_safe (r : MetricRow) :
    (r.copilot_total = 0 → copilotPercentage r = 0) ∧
    (0 < r.copilot_total → copilotPercentage r =
      (r.copilot_merged : ℚ) / (r.copilot_total : ℚ) * 100) ∧
    (r.codex_total = 0 → codexPercentage r = 0) ∧
    (0 < r.codex_total → codexPercentage r =
      (r.codex_merged : ℚ) / (r.codex_total : ℚ) * 100) ∧
    (r.copilot_total = 0 → readmeCopilotRate r = 0) ∧
    (0 < r.copilot_total → readmeCopilotRate r =
      (r.copilot_merged : ℚ) / (r.copilot_total : ℚ) * 100) ∧
    (r.codex_total = 0 → readmeCodexRate r = 0) ∧
    (0 < r.codex_total → readmeCodexRate r =
      (r.codex_merged : ℚ) / (r.codex_total : ℚ) * 100) ∧
    (r.copilot_total = 0 → pagesCopilotRate r = 0) ∧
    (0 < r.copilot_total → pagesCopilotRate r =
      (r.copilot_merged : ℚ) / (r.copilot_total : ℚ) * 100) ∧
    (r.codex_total = 0 → pagesCodexRate r = 0) ∧
    (0 < r.codex_total → pagesCodexRate r =
      (r.codex_merged : ℚ) / (r.codex_total : ℚ) * 100) := by
  refine ⟨?_, ?_, ?_, ?_, ?_, ?_, ?_, ?_, ?_, ?_, ?_, ?_⟩ <;> intro h
  · simp [copilotPercentage, h]
  · simp [copilotPercentage, h]
  · simp [codexPercentage, h]
  · simp [codexPercentage, h]
  · simp [readmeCopilotRate, h]
  · simp [readmeCopilotRate, h]
  · simp [readmeCodexRate, h]
  · simp [readmeCodexRate, h]
  · simp [pagesCopilotRate, h]
  · simp [pagesCopilotRate, h]
  · simp [pagesCodexRate, h]
  · simp [pagesCodexRate, h]

/-- A concrete row with a positive Copilot total and a zero Codex
total. -/
def rowW : MetricRow := ⟨"2025-10-12 01:02:03".data, 10, 5, 0, 0, 3, 1⟩

/-- Witness for C3: a positive total takes the quotient branch and a
zero total yields 0 rather than a division error. -/
theorem merge_rate_zero_safe_witness :
    copilotPercentage rowW = (5 : ℚ) / (10 : ℚ) * 100 ∧
    codexPercentage rowW = 0 :=
  ⟨(merge_rate_zero_safe rowW).2.1 (by decide),
   (merge_rate_zero_safe rowW).2.2.1 rfl⟩

/-! ### Claims C4, C5: the DisplaySample -/

/-- A generic interpolant of the truncating linspace as a natural
division. -/
lemma floorEntry (i m : Nat) :
    (⌊(0 : ℚ) + (i : ℚ) * ((((m : Nat) : ℚ) - 0) / ((7 : Nat) : ℚ))⌋).toNat =
      i * m / 7 := by
  have h : (0 : ℚ) + (i : ℚ) * ((((m : Nat) : ℚ) - 0) / ((7 : Nat) : ℚ)) =
      (((i * m : Nat) : ℚ)) / ((7 : Nat) : ℚ) := by push_cast; ring
  rw [h, Int.floor_toNat, Nat.floor_div_nat, Nat.floor_natCast]

/-- A generic interpolant of the rounding linspace as a natural
division. -/
lemma roundEntry (i m : Nat) :
    (round ((i : ℚ) * (((m : Nat) : ℚ) / 7))).toNat = (2 * (i * m) + 7) / 14 := by
  have h : (i : ℚ) * (((m : Nat) : ℚ) / 7) + 1 / 2 =
      (((2 * (i * m) + 7 : Nat) : ℚ)) / ((14 : Nat) : ℚ) := by
    push_cast; ring
  rw [round_eq, h, Int.floor_toNat, Nat.floor_div_nat, Nat.floor_natCast]

/-- The truncating index selection in closed form: index `i` maps to
`⌊i·(n-1)/7⌋`. -/
lemma sampleIndices_eq (n : Nat) :
    sampleIndices n = (List.range 8).map fun i => i * (n - 1) / 7 := by
  unfold sampleIndices linspaceInt
  rw [List.map_map]
  refine List.map_congr_left fun i hi => ?_
  have hi8 : i < 8 := List.mem_range.mp hi
  by_cases h7 : i = 7
  · have h7' : i = 8 - 1 := h7
    rw [Function.comp_apply, if_pos h7', Int.floor_natCast,
      Int.toNat_natCast, h7, Nat.mul_div_cancel_left _ (by norm_num : 0 < 7)]
  · have h7' : ¬ (i = 8 - 1) := h7
    rw [Function.comp_apply, if_neg h7']
    exact floorEntry i (n - 1)

/-- The rounding index selection of the specification in closed form. -/
lemma sampleIndicesSpec_eq (n : Nat) :
    sampleIndicesSpec n =
      (List.range 8).map fun i => (2 * (i * (n - 1)) + 7) / 14 := by
  unfold sampleIndicesSpec
  exact List.map_congr_left fun i _ => roundEntry i (n - 1)

/-- The selection always yields exactly eight indices. -/
lemma sampleIndices_length (n : Nat) : (sampleIndices n).length = 8 := by
  simp [sampleIndices, linspaceInt]

/-- Claim C4: a non-empty log's DisplaySample has at most 8 rows, and
when the log has more than 8 rows the sample still starts at the log's
first row and ends at its last row. -/
theorem displaySample_length_endpoints (log : List MetricRow)
    (h : 0 < log.length) :
    (displaySample log).length ≤ 8 ∧
    (8 < log.length →
      (displaySample log).head? = log.head? ∧
      (displaySample log).getLast? = log.getLast?) := by
  by_cases hlen : log.length > 8
  · have hform := sampleIndices_eq log.length
    constructor
    · simp [displaySample, hlen, sampleIndices_length]
    · intro _
      rw [displaySample, if_pos hlen, hform, List.map_map,
        show List.range 8 = [0, 1, 2, 3, 4, 5, 6, 7] from rfl]
      constructor
      · simp only [List.map_cons, List.head?_cons, Function.comp_apply]
        rw [Nat.zero_mul, Nat.zero_div]
        cases log with
        | nil => cases h
        | cons a l => rfl
      · simp only [List.map_cons, List.map_nil, Function.comp_apply]
        rw [List.getLast?]
        simp only [List.getLast]
        rw [Nat.mul_div_cancel_left _ (by norm_num : 0 < 7)]
        rw [List.getLast?_eq_getElem?, List.getD_eq_getElem?_getD]
        rw [List.getElem?_eq_getElem (by omega : log.length - 1 < log.length)]
        rfl
  · constructor
    · rw [displaySample, if_neg hlen]; omega
    · intro h8; exact absurd h8 hlen

/-- A concrete nine-row log. -/
def logW : List MetricRow :=
  (List.range 9).map fun k => ⟨[], k, 0, 0, 0, 0, 0⟩

/-- Witness for C4 on the nine-row log. -/
theorem displaySample_length_endpoints_witness :
    (displaySample logW).length ≤ 8 ∧
    (displaySample logW).head? = logW.head? :=
  ⟨(displaySample_length_endpoints logW (by decide)).1,
   ((displaySample_length_endpoints logW (by decide)).2 (by decide)).1⟩

/-- Counterexample to C5 as stated: at a ten-row log the code's
truncating selection differs from the round-to-nearest selection the
claim describes (the code picks index 2 where rounding picks 3). -/
theorem sample_rounding_counterexample :
    sampleIndices 10 ≠ sampleIndicesSpec 10 := by
  rw [sampleIndices_eq 10, sampleIndicesSpec_eq 10]
  decide

/-- Claim C5, amended: for more than 8 rows the eight indices are the
linear interpolants `i·(n-1)/7` over the full inclusive index range,
each truncated (rounded toward zero by the `dtype=int` cast), not
rounded to nearest; they start at 0, end at `n-1` and never leave the
index range. -/
theorem sampleIndices_floor_formula (n : Nat) (_h : 8 < n) :
    sampleIndices n = (List.range 8).map (fun i => i * (n - 1) / 7) ∧
    (sampleIndices n).head? = some 0 ∧
    (sampleIndices n).getLast? = some (n - 1) ∧
    ∀ j ∈ sampleIndices n, j ≤ n - 1 := by
  refine ⟨sampleIndices_eq n, ?_, ?_, ?_⟩
  · rw [sampleIndices_eq n, show List.range 8 = [0, 1, 2, 3, 4, 5, 6, 7] from rfl]
    simp
  · rw [sampleIndices_eq n, show List.range 8 = [0, 1, 2, 3, 4, 5, 6, 7] from rfl]
    simp only [List.map_cons, List.map_nil]
    rw [List.getLast?]
    simp only [List.getLast]
    rw [Nat.mul_div_cancel_left _ (by norm_num : 0 < 7)]
  · intro j hj
    rw [sampleIndices_eq n] at hj
    obtain ⟨i, hi, rfl⟩ := List.mem_map.mp hj
    have hi8 : i < 8 := List.mem_range.mp hi
    have : i * (n - 1) ≤ 7 * (n - 1) := by
      exact Nat.mul_le_mul_right _ (by omega)
    calc i * (n - 1) / 7 ≤ 7 * (n - 1) / 7 := Nat.div_le_div_right this
      _ = n - 1 := Nat.mul_div_cancel_left _ (by norm_num)

/-- Witness for the amended C5 at a twenty-row log. -/
theorem sampleIndices_floor_formula_witness :
    sampleIndices 20 = (List.range 8).map (fun i => i * (20 - 1) / 7) :=
  (sampleIndices_floor_formula 20 (by norm_num)).1

/-! ### Claim C7: bar value labels -/

/-- Counterexample to C7 as stated: 12,345 renders as plain "12345"
(five characters, no abbreviation) and 3,400,000 renders as plain
"3400000", because the source only abbreviates once the plain rendering
exceeds ten characters. -/
theorem labelText_counterexample :
    labelText 12345 ≠ "12.3k".data ∧ labelText 3400000 ≠ "3.4M".data ∧
    labelText 12345 = "12345".data ∧ labelText 3400000 = "3400000".data := by
  refine ⟨by decide, by decide, by decide, by decide⟩

/-- Claim C7, amended: the label is the plain decimal form whenever
that form fits in ten characters (so 42, 12345 and 3400000 all render
unabbreviated); only when the plain form exceeds ten characters does
abbreviation fire, and then the `k` branch applies to every value
≥ 1000, so the label is always either the plain form or the `k` form —
the `M` branch of the source is unreachable (a value below 1000 cannot
be ≥ 1,000,000).  Labels are only drawn at all for positive heights. -/
theorem labelText_amended (v : Nat) :
    ((decRepr v).length ≤ 10 → labelText v = decRepr v) ∧
    (10 < (decRepr v).length → 1000 ≤ v → labelText v = kFormChars v) ∧
    (labelText v = decRepr v ∨ (1000 ≤ v ∧ labelText v = kFormChars v)) ∧
    valueLabel 0 = none ∧
    (0 < v → valueLabel v = some (labelText v)) := by
  refine ⟨?_, ?_, ?_, rfl, ?_⟩
  · intro hlen
    simp only [labelText]
    rw [if_neg (by omega)]
  · intro hlen hv
    simp only [labelText]
    rw [if_pos (by omega), if_pos hv]
  · by_cases h1 : (decRepr v).length > 10
    · by_cases h2 : 1000 ≤ v
      · refine Or.inr ⟨h2, ?_⟩
        simp only [labelText]
        rw [if_pos h1, if_pos h2]
      · refine Or.inl ?_
        simp only [labelText]
        rw [if_pos h1, if_neg h2, if_neg (by omega)]
    · refine Or.inl ?_
      simp only [labelText]
      rw [if_neg h1]
  · intro hv
    simp [valueLabel, hv]

/-- Witness for the amended C7 at height 42. -/
theorem labelText_amended_witness : labelText 42 = decRepr 42 :=
  (labelText_amended 42).1 (by decide)

/-! ### Claims C8, C10: the timestamp format -/

/-- Characters produced by `Nat.digitChar` on decimal digit values are
the ASCII digits. -/
lemma digitChar_isDigit (d : Nat) (h : d ≤ 9) :
    '0' ≤ Nat.digitChar d ∧ Nat.digitChar d ≤ '9' := by
  interval_cases d <;> decide

/-- The interpreter applied to the source's format literal, spelled
out: four year digits, U+2011, two month digits, U+2011, two day
digits, a space, and the colon-separated time fields. -/
lemma timestampOf_explicit (t : DateTime) :
    timestampOf t = pad4 t.year ++ nbHyphen :: (pad2 t.month ++ nbHyphen ::
      (pad2 t.day ++ ' ' :: (pad2 t.hour ++ ':' ::
      (pad2 t.minute ++ ':' :: pad2 t.second)))) := by
  show strftime t timestampFmt = _
  rw [timestampFmt]
  rw [show ('%' :: 'Y' :: nbHyphen :: '%' :: 'm' :: nbHyphen :: '%' :: 'd' ::
      ' ' :: '%' :: 'H' :: ':' :: '%' :: 'M' :: ':' :: '%' :: 'S' :: [] : Chars) =
    '%' :: 'Y' :: (nbHyphen :: '%' :: 'm' :: nbHyphen :: '%' :: 'd' :: ' ' ::
      '%' :: 'H' :: ':' :: '%' :: 'M' :: ':' :: '%' :: 'S' :: []) from rfl]
  simp only [strftime]
  simp [List.append_assoc]

/-- Claim C8, amended: every timestamp the Collector writes has the
shape `YYYY‑MM‑DD HH:MM:SS` where the two date separators are the
non-breaking hyphen U+2011 — not the ASCII hyphen the claim asserts —
while all remaining characters are ASCII digits, the space and the two
colons. -/
theorem timestamp_format_amended (t : DateTime) :
    timestampOf t = pad4 t.year ++ nbHyphen :: (pad2 t.month ++ nbHyphen ::
      (pad2 t.day ++ ' ' :: (pad2 t.hour ++ ':' ::
      (pad2 t.minute ++ ':' :: pad2 t.second)))) ∧
    (∀ c ∈ timestampOf t, ('0' ≤ c ∧ c ≤ '9') ∨ c = ' ' ∨ c = ':' ∨
      c = nbHyphen) ∧
    nbHyphen ≠ '-' := by
  refine ⟨timestampOf_explicit t, ?_, by decide⟩
  intro c hc
  rw [timestampOf_explicit t] at hc
  simp only [List.mem_append, List.mem_cons, pad4, pad2] at hc
  rcases hc with (rfl | rfl | rfl | rfl | h) | hc
  · exact Or.inl (digitChar_isDigit _ (by omega))
  · exact Or.inl (digitChar_isDigit _ (by omega))
  · exact Or.inl (digitChar_isDigit _ (by omega))
  · exact Or.inl (digitChar_isDigit _ (by omega))
  · cases h
  · rcases hc with rfl | (rfl | rfl | h) | hc
    · exact Or.inr (Or.inr (Or.inr rfl))
    · exact Or.inl (digitChar_isDigit _ (by omega))
    · exact Or.inl (digitChar_isDigit _ (by omega))
    · cases h
    · rcases hc with rfl | (rfl | rfl | h) | hc
      · exact Or.inr (Or.inr (Or.inr rfl))
      · exact Or.inl (digitChar_isDigit _ (by omega))
      · exact Or.inl (digitChar_isDigit _ (by omega))
      · cases h
      · rcases hc with rfl | (rfl | rfl | h) | hc
        · exact Or.inr (Or.inl rfl)
        · exact Or.inl (digitChar_isDigit _ (by omega))
        · exact Or.inl (digitChar_isDigit _ (by omega))
        · cases h
        · rcases hc with rfl | (rfl | rfl | h) | hc
          · exact Or.inr (Or.inr (Or.inl rfl))
          · exact Or.inl (digitChar_isDigit _ (by omega))
          · exact Or.inl (digitChar_isDigit _ (by omega))
          · cases h
          · rcases hc with rfl | rfl | rfl | h
            · exact Or.inr (Or.inr (Or.inl rfl))
            · exact Or.inl (digitChar_isDigit _ (by omega))
            · exact Or.inl (digitChar_isDigit _ (by omega))
            · cases h

/-- Witness for the amended C8 at the fixed instant. -/
theorem timestamp_format_amended_witness :
    timestampOf nowW = pad4 nowW.year ++ nbHyphen :: (pad2 nowW.month ++
      nbHyphen :: (pad2 nowW.day ++ ' ' :: (pad2 nowW.hour ++ ':' ::
      (pad2 nowW.minute ++ ':' :: pad2 nowW.second)))) :=
  (timestamp_format_amended nowW).1

/-- Counterexample to C8 as stated: the written timestamp is not the
all-ASCII string, because the date separators are U+2011. -/
theorem timestamp_not_ascii :
    timestampOf ⟨2024, 1, 2, 3, 4, 5⟩ ≠ "2024-01-02 03:04:05".data ∧
    nbHyphen ∈ timestampOf ⟨2024, 1, 2, 3, 4, 5⟩ := by
  exact ⟨by decide, by decide⟩

/-- Dash normalization leaves ASCII digit characters alone. -/
lemma normalizeDash_digitChar (d : Nat) (h : d ≤ 9) :
    (if Nat.digitChar d = nbHyphen then '-' else Nat.digitChar d) =
      Nat.digitChar d := by
  interval_cases d <;> decide

/-- Dash normalization is the identity on a two-digit field. -/
lemma normalizeDash_pad2 (n : Nat) : normalizeDash (pad2 n) = pad2 n := by
  simp only [normalizeDash, pad2, List.map_cons, List.map_nil]
  rw [normalizeDash_digitChar _ (by omega), normalizeDash_digitChar _ (by omega)]

/-- Dash normalization is the identity on the four-digit year field. -/
lemma normalizeDash_pad4 (n : Nat) : normalizeDash (pad4 n) = pad4 n := by
  simp only [normalizeDash, pad4, List.map_cons, List.map_nil]
  rw [normalizeDash_digitChar _ (by omega), normalizeDash_digitChar _ (by omega),
    normalizeDash_digitChar _ (by omega), normalizeDash_digitChar _ (by omega)]

/-- Normalizing the written timestamp yields the ASCII
`YYYY-MM-DD HH:MM:SS` form. -/
lemma normalizeDash_timestampOf (t : DateTime) :
    normalizeDash (timestampOf t) =
      pad4 t.year ++ '-' :: (pad2 t.month ++ '-' ::
      (pad2 t.day ++ ' ' :: (pad2 t.hour ++ ':' ::
      (pad2 t.minute ++ ':' :: pad2 t.second)))) := by
  rw [timestampOf_explicit]
  simp only [normalizeDash, List.map_append, List.map_cons]
  rw [← normalizeDash, ← normalizeDash, ← normalizeDash, ← normalizeDash,
    ← normalizeDash, ← normalizeDash]
  rw [normalizeDash_pad4, normalizeDash_pad2, normalizeDash_pad2,
    normalizeDash_pad2, normalizeDash_pad2, normalizeDash_pad2]
  norm_num
  exact ⟨fun hx => absurd hx (by decide), fun hx => absurd hx (by decide)⟩

/-- Digit characters read back as their digit values. -/
lemma digitVal_digitChar (d : Nat) (h : d ≤ 9) :
    digitVal (Nat.digitChar d) = some d := by
  interval_cases d <;> decide

/-- Reading two digits off a two-digit field recovers its value. -/
lemma readDigits_pad2 (n acc : Nat) (h : n ≤ 99) (r : Chars) :
    readDigits 2 acc (pad2 n ++ r) = some (acc * 100 + n, r) := by
  simp only [pad2, List.cons_append, List.nil_append, readDigits,
    digitVal_digitChar _ (show n / 10 % 10 ≤ 9 by omega),
    digitVal_digitChar _ (show n % 10 ≤ 9 by omega),
    List.nil_append, Option.some.injEq, Prod.mk.injEq]
  exact ⟨by omega, rfl⟩

/-- Reading four digits off the year field recovers its value. -/
lemma readDigits_pad4 (n acc : Nat) (h : n ≤ 9999) (r : Chars) :
    readDigits 4 acc (pad4 n ++ r) = some (acc * 10000 + n, r) := by
  simp only [pad4, List.cons_append, List.nil_append, readDigits,
    digitVal_digitChar _ (show n / 1000 % 10 ≤ 9 by omega),
    digitVal_digitChar _ (show n / 100 % 10 ≤ 9 by omega),
    digitVal_digitChar _ (show n / 10 % 10 ≤ 9 by omega),
    digitVal_digitChar _ (show n % 10 ≤ 9 by omega),
    List.nil_append, Option.some.injEq, Prod.mk.injEq]
  exact ⟨by omega, rfl⟩

/-- Every month length is at most 31 days. -/
lemma daysInMonth_le (y m : Nat) : daysInMonth y m ≤ 31 := by
  unfold daysInMonth
  split
  · split <;> norm_num
  · split <;> norm_num

/-- Claim C10: for any valid datetime whose year has four digits, the
Collector's formatter followed by the Reporter's dash normalization and
a parse of the normalized `YYYY-MM-DD HH:MM:SS` shape recovers the
datetime exactly (to the one-second precision that is stored) — the
write/normalize/parse pipeline is a round trip even though every row
carries the non-standard dash. -/
theorem timestamp_roundtrip (t : DateTime)
    (hy1 : 1000 ≤ t.year) (hy2 : t.year ≤ 9999)
    (hm1 : 1 ≤ t.month) (hm2 : t.month ≤ 12)
    (hd1 : 1 ≤ t.day) (hd2 : t.day ≤ daysInMonth t.year t.month)
    (hh : t.hour ≤ 23) (hmi : t.minute ≤ 59) (hs : t.second ≤ 59) :
    parseTimestamp (normalizeDash (timestampOf t)) = some t := by
  obtain ⟨y, mo, d, hr, mi, se⟩ := t
  simp only at hy1 hy2 hm1 hm2 hd1 hd2 hh hmi hs
  rw [normalizeDash_timestampOf]
  simp only [parseTimestamp]
  rw [readDigits_pad4 y 0 hy2]
  simp only [Nat.zero_mul, Nat.zero_add, expectChar, reduceIte]
  rw [readDigits_pad2 mo 0 (by omega)]
  simp only [Nat.zero_mul, Nat.zero_add, reduceIte]
  rw [readDigits_pad2 d 0 (by have := daysInMonth_le y mo; omega)]
  simp only [Nat.zero_mul, Nat.zero_add, reduceIte]
  rw [readDigits_pad2 hr 0 (by omega)]
  simp only [Nat.zero_mul, Nat.zero_add, reduceIte]
  rw [readDigits_pad2 mi 0 (by omega)]
  simp only [Nat.zero_mul, Nat.zero_add, reduceIte]
  rw [show pad2 se = pad2 se ++ ([] : Chars) from (List.append_nil _).symm,
    readDigits_pad2 se 0 (by omega)]
  simp only [Nat.zero_mul, Nat.zero_add]
  rw [if_pos ⟨trivial, hm1, hm2, hd1, hd2, hh, hmi, hs⟩]

/-- Witness for C10 at the fixed instant. -/
theorem timestamp_roundtrip_witness :
    parseTimestamp (normalizeDash (timestampOf nowW)) = some nowW :=
  timestamp_roundtrip nowW (by decide) (by decide) (by decide) (by decide)
    (by decide) (by decide) (by decide) (by decide) (by decide)

/-! ### Claim C6: idempotence of the Markdown rewrite -/

/-- A leading segment of a list also occurs inside it. -/
lemma within_of_front {p s : Chars} (h : p <+: s) : p <:+: s := by
  obtain ⟨t, ht⟩ := h
  exact ⟨[], t, by simpa using ht⟩

/-- Occurring inside a list is preserved by consing in front. -/
lemma within_cons (b : Char) {l B : Chars} (h : l <:+: B) : l <:+: b :: B := by
  obtain ⟨s, t, hst⟩ := h
  exact ⟨b :: s, t, by simp [hst]⟩

/-- Not occurring inside a list transfers to its leading segments. -/
lemma not_within_of_front {H p s : Chars} (hn : ¬ H <:+: s) (hp : p <+: s) :
    ¬ H <:+: p :=
  fun hi => hn (hi.trans (within_of_front hp))

/-- The part before the first occurrence is a leading segment. -/
lemma splitBefore_front (sep s : Chars) : splitBefore sep s <+: s := by
  induction s with
  | nil => exact ⟨[], rfl⟩
  | cons c rest ih =>
    simp only [splitBefore]
    by_cases h : sep <+: (c :: rest)
    · rw [if_pos h]; exact ⟨c :: rest, rfl⟩
    · rw [if_neg h]
      obtain ⟨t, ht⟩ := ih
      exact ⟨t, by rw [List.cons_append, ht]⟩

/-- The separator does not occur in the part before its first
occurrence. -/
lemma not_contains_splitBefore {sep : Chars} (hne : sep ≠ []) (s : Chars) :
    ¬ sep <:+: splitBefore sep s := by
  induction s with
  | nil =>
    intro hcon
    obtain ⟨a, b, hab⟩ := hcon
    have := congrArg List.length hab
    simp only [splitBefore, List.length_append, List.length_nil] at this
    exact hne (List.length_eq_zero.mp (by omega))
  | cons c rest ih =>
    simp only [splitBefore]
    by_cases h : sep <+: (c :: rest)
    · rw [if_pos h]
      intro hcon
      obtain ⟨a, b, hab⟩ := hcon
      have := congrArg List.length hab
      simp only [List.length_append, List.length_nil] at this
      exact hne (List.length_eq_zero.mp (by omega))
    · rw [if_neg h]
      intro hcon
      obtain ⟨a, b, hab⟩ := hcon
      cases a with
      | nil =>
        simp only [List.nil_append] at hab
        have h1 : sep <+: c :: splitBefore sep rest := ⟨b, hab⟩
        have h2 : c :: splitBefore sep rest <+: c :: rest := by
          obtain ⟨t, ht⟩ := splitBefore_front sep rest
          exact ⟨t, by rw [List.cons_append, ht]⟩
        exact h (h1.trans h2)
      | cons a0 a' =>
        simp only [List.cons_append] at hab
        injection hab with h1 h2
        exact ih ⟨a', b, h2⟩

/-- A newline-free leading segment of `B ++ '\n' :: X` already leads
`B`. -/
lemma front_through_newline : ∀ (B : Chars) {H X : Chars}, '\n' ∉ H →
    H <+: (B ++ '\n' :: X) → H <+: B
  | [], H, X => by
    intro hnl hp
    cases H with
    | nil => exact ⟨[], rfl⟩
    | cons a H' =>
      obtain ⟨t, ht⟩ := hp
      simp only [List.nil_append, List.cons_append] at ht
      injection ht with h1 h2
      exact absurd (List.mem_cons.mpr (Or.inl h1.symm)) hnl
  | b :: B', H, X => by
    intro hnl hp
    cases H with
    | nil => exact ⟨b :: B', rfl⟩
    | cons a H' =>
      obtain ⟨t, ht⟩ := hp
      simp only [List.cons_append] at ht
      injection ht with h1 h2
      subst h1
      have hmem : '\n' ∉ H' := fun hm => hnl (List.mem_cons_of_mem _ hm)
      obtain ⟨t', ht'⟩ := front_through_newline B' hmem ⟨t, h2⟩
      exact ⟨t', by rw [List.cons_append, ht']⟩

/-- Splitting at the separator when the document is a separator-free
head, a blank line, and then the separator itself cuts exactly at the
blank line. -/
lemma splitBefore_boundary {H : Chars} (hne : H ≠ []) (hnl : '\n' ∉ H) :
    ∀ (B T : Chars), ¬ H <:+: B →
      splitBefore H (B ++ '\n' :: '\n' :: (H ++ T)) = B ++ ['\n', '\n']
  | [], T => by
    intro _
    have hstep : ∀ (Y : Chars), ¬ H <+: ('\n' :: Y) := by
      intro Y hp
      cases H with
      | nil => exact hne rfl
      | cons h0 H' =>
        obtain ⟨t, ht⟩ := hp
        simp only [List.cons_append] at ht
        injection ht with h1 h2
        exact absurd (List.mem_cons.mpr (Or.inl h1.symm)) hnl
    have hend : splitBefore H (H ++ T) = [] := by
      cases H with
      | nil => exact absurd rfl hne
      | cons h0 H' =>
        rw [List.cons_append]
        simp only [splitBefore]
        rw [if_pos ⟨T, by rw [List.cons_append]⟩]
    simp only [List.nil_append, splitBefore]
    rw [if_neg (hstep ('\n' :: (H ++ T))), if_neg (hstep (H ++ T)), hend]
  | b :: B', T => by
    intro hBnin
    have hnA : ¬ H <+: (b :: (B' ++ '\n' :: '\n' :: (H ++ T))) := by
      intro hp
      have hp' : H <+: ((b :: B') ++ '\n' :: ('\n' :: (H ++ T))) := hp
      exact hBnin (within_of_front (front_through_newline (b :: B') hnl hp'))
    rw [List.cons_append]
    simp only [splitBefore]
    rw [if_neg hnA]
    rw [splitBefore_boundary hne hnl B' T
      (fun hw => hBnin (within_cons b hw))]
    rfl

/-- Right-stripping twice is the same as once. -/
lemma rstrip_idem (s : Chars) : rstrip (rstrip s) = rstrip s := by
  unfold rstrip
  rw [List.reverse_reverse, List.dropWhile_idempotent]

/-- Right-stripping absorbs a trailing blank line. -/
lemma rstrip_append_nl2 (B : Chars) : rstrip (B ++ ['\n', '\n']) = rstrip B := by
  unfold rstrip
  rw [List.reverse_append]
  show (List.dropWhile isPySpace ('\n' :: '\n' :: B.reverse)).reverse = _
  rw [List.dropWhile_cons_of_pos (by decide), List.dropWhile_cons_of_pos (by decide)]

/-- The right-stripped string is a leading segment of the original. -/
lemma rstrip_front (s : Chars) : rstrip s <+: s := by
  refine ⟨(List.takeWhile isPySpace s.reverse).reverse, ?_⟩
  show (List.dropWhile isPySpace s.reverse).reverse ++ _ = s
  rw [← List.reverse_append, List.takeWhile_append_dropWhile, List.reverse_reverse]

/-- The statistics heading is a non-empty, newline-free string. -/
lemma statsHeading_ne : statsHeading ≠ [] := by decide

/-- The statistics heading contains no newline. -/
lemma statsHeading_no_newline : '\n' ∉ statsHeading := by decide

/-- Claim C6, amended (for the Markdown rewrite): running
`update_readme` twice with the same latest row is byte-identical to
running it once whenever the document already contains the
`## Current Statistics` heading, or ends in no trailing whitespace.
(On a heading-free document with trailing whitespace the two outputs
differ, as the counterexample shows: the no-heading branch does not
right-strip, while the second run does.) -/
theorem update_readme_idempotent_cases (lat : MetricRow) (doc : Chars)
    (h : statsHeading <:+: doc ∨ rstrip doc = doc) :
    update_readme lat (update_readme lat doc) = update_readme lat doc := by
  have hshape : ∃ B, update_readme lat doc =
      B ++ '\n' :: '\n' :: (statsHeading ++ tableTail lat) ∧
      ¬ statsHeading <:+: B ∧ rstrip B = B := by
    by_cases hin : statsHeading <:+: doc
    · refine ⟨rstrip (splitBefore statsHeading doc), ?_, ?_, rstrip_idem _⟩
      · simp only [update_readme]
        rw [if_pos hin]
        rfl
      · exact not_within_of_front
          (not_contains_splitBefore statsHeading_ne doc) (rstrip_front _)
    · rcases h with h' | h'
      · exact absurd h' hin
      · refine ⟨doc, ?_, hin, h'⟩
        simp only [update_readme]
        rw [if_neg hin]
        rfl
  obtain ⟨B, hfdoc, hBnin, hBr⟩ := hshape
  rw [hfdoc]
  have hin2 : statsHeading <:+:
      (B ++ '\n' :: '\n' :: (statsHeading ++ tableTail lat)) :=
    ⟨B ++ ['\n', '\n'], tableTail lat, by simp⟩
  simp only [update_readme]
  rw [if_pos hin2,
    splitBefore_boundary statsHeading_ne statsHeading_no_newline B
      (tableTail lat) hBnin,
    rstrip_append_nl2, hBr]
  rfl

/-- A document that already carries the statistics heading. -/
def docW : Chars := "# Title\n\n## Current Statistics\nold table\n".data

/-- Witness for the amended C6 on a document containing the heading. -/
theorem update_readme_idempotent_cases_witness :
    update_readme rowW (update_readme rowW docW) = update_readme rowW docW :=
  update_readme_idempotent_cases rowW docW (Or.inl (by decide))

/-- Counterexample to C6 as stated: on the heading-free document
"Intro\n", which ends in a newline, the second run of the Markdown
rewrite is not byte-identical to the first — the first run appends the
block after the trailing newline, the second run strips that newline. -/
theorem update_readme_not_idempotent :
    update_readme rowW (update_readme rowW "Intro\n".data) ≠
      update_readme rowW "Intro\n".data := by
  have h1 : ¬ statsHeading <:+: ("Intro\n".data) := by decide
  have hf : update_readme rowW "Intro\n".data =
      "Intro\n".data ++ '\n' :: '\n' :: (statsHeading ++ tableTail rowW) := by
    simp only [update_readme]
    rw [if_neg h1]
    rfl
  rw [hf]
  have hin2 : statsHeading <:+:
      ("Intro\n".data ++ '\n' :: '\n' :: (statsHeading ++ tableTail rowW)) :=
    ⟨"Intro\n".data ++ ['\n', '\n'], tableTail rowW, by simp⟩
  simp only [update_readme]
  rw [if_pos hin2,
    splitBefore_boundary statsHeading_ne statsHeading_no_newline
      ("Intro\n".data) (tableTail rowW) h1,
    rstrip_append_nl2,
    show rstrip "Intro\n".data = "Intro".data from by decide]
  intro heq
  have := congrArg List.length heq
  simp only [show tableContent rowW = statsHeading ++ tableTail rowW from rfl,
    List.length_append, List.length_cons,
    show ("Intro".data).length = 5 from by decide,
    show ("Intro\n".data).length = 6 from by decide] at this
  omega
